import Mathlib

/-!
Shallow embedding of the `CommandLine` class of PortAudioCaptureApp
(`src/PortAudioCaptureApp/CommandLine.cpp`): argument registration, help
rendering (`CommandLine::printHelp`) and token parsing (`CommandLine::parse`).

Caller-owned destination variables are modelled by an explicit store
`Nat → Val` (a typed cell per address); the parser writes decoded values
into it exactly where the C++ writes through the variant of pointers.
Output streams are modelled as lists: `printHelp` yields the list of lines
sent to `os` (one per `std::endl`), `parse` yields the list of warnings sent
to `std::cerr` together with the final store and an optional fatal error
(the C++ `throw std::runtime_error`).
-/

namespace PACApp

/-- A value stored in a caller-owned destination cell. -/
inductive Val where
  | vbool (b : Bool)
  | vint (n : Int)
  | vstr (s : String)
deriving DecidableEq, Repr

/-- Modelled from the spec: the header `CommandLine.hpp` declaring the
`Value` variant is absent from `src/`.  Per the spec's data model, the
bound value is an "optional tagged reference to one of {boolean, integer,
floating-point, string} storage".  A destination is a tagged address into
the store.  The floating-point kind goes through the very same
stream-extraction branch of `CommandLine::parse` as the integer kind and is
represented here by the integer kind (floating-point values themselves are
outside the embedding). -/
inductive Dest where
  | dbool (addr : Nat)
  | dint (addr : Nat)
  | dstr (addr : Nat)
deriving DecidableEq, Repr

/-- The store address a destination points into. -/
def Dest.addr : Dest → Nat
  | .dbool a => a
  | .dint a => a
  | .dstr a => a

/-- Whether a destination is the boolean kind. -/
def Dest.isBoolDest : Dest → Bool
  | .dbool _ => true
  | _ => false

/-- One registered argument: flag aliases, optional bound destination, help
text (struct `Argument` per `addArgument`, CommandLine.cpp:13-18). -/
structure Argument where
  mFlags : List String
  mValue : Option Dest
  mHelp : String
deriving DecidableEq, Repr

/-- The `CommandLine` object: description plus the registry of arguments in
registration order. -/
structure CommandLine where
  mDescription : String
  mArguments : List Argument
deriving DecidableEq, Repr

/-- Caller-owned destination cells. -/
abbrev Store := Nat → Val

/-- Writing through a destination pointer. -/
def updStore (st : Store) (a : Nat) (v : Val) : Store :=
  fun x => if x = a then v else st x

/-! ### Token splitting (CommandLine.cpp:90-97)

`flag.find('=')`: split the token at its FIRST `'='`; the part after it is
the value.  If there is no `'='` the value stays empty (the
space-separated-value branch at lines 99-103 is commented out in the
source). -/

/-- Split a character list at its first `'='`: `none` when no `'='` occurs,
otherwise the parts strictly before and strictly after the first `'='`. -/
def splitEq : List Char → Option (List Char × List Char)
  | [] => none
  | c :: cs =>
    if c = '=' then some ([], cs)
    else
      match splitEq cs with
      | none => none
      | some (pre, post) => some (c :: pre, post)

/-- The (flag, value) pair extracted from one argv token
(CommandLine.cpp:86-97). -/
def splitToken (tok : String) : String × String :=
  match splitEq tok.toList with
  | none => (tok, "")
  | some (pre, post) => (String.mk pre, String.mk post)

/-! ### Stream extraction of an integer (CommandLine.cpp:143-153)

`std::stringstream sstr(value); sstr >> *arg;` with the default
`skipws | dec` flags and the classic locale: skip leading whitespace, an
optional sign, then decimal digits.  Since C++11, a failed extraction (no
digits) stores `0`, and an out-of-range field stores the clamped bound;
extraction otherwise stores the value of the longest numeric prefix and
silently ignores trailing garbage.  The stream's failbit is never checked
by the source. -/

/-- The whitespace characters `std::ws`/`skipws` skips (`isspace` in the
classic locale). -/
def isStreamSpace (c : Char) : Bool :=
  c = ' ' || c = '\t' || c = '\n' || c = Char.ofNat 11 || c = Char.ofNat 12 || c = '\r'

/-- Decimal value of a digit string. -/
def natOfDigits (cs : List Char) : Nat :=
  cs.foldl (fun acc c => 10 * acc + (c.toNat - 48)) 0

/-- The numeric field `std::num_get` reads from the character sequence:
`none` when no digit can be read (extraction failure), otherwise the signed
value of the longest `[+-]?[0-9]+` prefix after skipped whitespace. -/
def extractIntCore (cs : List Char) : Option Int :=
  let cs1 := cs.dropWhile isStreamSpace
  let sc : Bool × List Char :=
    match cs1 with
    | '-' :: rest => (true, rest)
    | '+' :: rest => (false, rest)
    | _ => (false, cs1)
  let digs := sc.2.takeWhile Char.isDigit
  if digs = [] then none
  else some (if sc.1 then -(natOfDigits digs : Int) else (natOfDigits digs : Int))

/-- Range clamping of `int` extraction (C++11: an out-of-range field stores
the nearest representable bound). -/
def clampInt32 (v : Int) : Int := max (-2147483648) (min 2147483647 v)

/-- The value `sstr >> *arg` leaves in an `int` destination: the extracted
field, or `0` when extraction fails (C++11 semantics of a failed
`num_get`). -/
def readInt (s : String) : Int :=
  match extractIntCore s.toList with
  | none => 0
  | some v => clampInt32 v

/-! ### One iteration of the parse loop (CommandLine.cpp:81-174) -/

/-- The warning printed to `std::cerr` for an unknown flag
(CommandLine.cpp:162-163). -/
def warnMsg (flag : String) : String :=
  "Ignoring unknown command line argument \"" ++ flag ++ "\"."

/-- The message of the `std::runtime_error` thrown for a missing value
(CommandLine.cpp:134-136). -/
def missingMsg (flag : String) : String :=
  "Failed to parse command line arguments: Missing value for argument \"" ++ flag ++ "\"!"

/-- First registered argument one of whose aliases is exactly `flag`
(the `std::find` over `argument.mFlags` inside the loop over `mArguments`,
CommandLine.cpp:108-111; the first match wins because of the `break`). -/
def findArg (cl : CommandLine) (flag : String) : Option Argument :=
  cl.mArguments.find? (fun a => a.mFlags.contains flag)

/-- Result of one iteration of the while loop: the store after the
iteration, the warning emitted (if any), the `foundArgument` flag, and the
final value of `valueIsSeparate`. -/
structure StepR where
  store : Store
  warn : Option String
  found : Bool
  valueIsSeparate : Bool

/-- Body of the while loop of `CommandLine::parse` for the token at the
current index (CommandLine.cpp:84-164): split the token at the first `'='`
(`valueIsSeparate` starts `false` and the branch at lines 99-103 that would
set it `true` is commented out), look the flag up, then dispatch on the
bound destination: absent destination does nothing (line 114-118), a
boolean destination gets `value != "false"` (lines 123-130, after possibly
re-clearing `valueIsSeparate`), any other destination with an empty value
throws (lines 132-137), a string destination gets the value verbatim
(lines 139-142), the remaining kinds go through stream extraction
(lines 145-153). -/
def procTok (cl : CommandLine) (tok : String) (st : Store) : Except String StepR :=
  let flag := (splitToken tok).1
  let value := (splitToken tok).2
  let valueIsSeparate := false
  match findArg cl flag with
  | none => .ok ⟨st, some (warnMsg flag), false, valueIsSeparate⟩
  | some arg =>
    match arg.mValue with
    | none => .ok ⟨st, none, true, valueIsSeparate⟩
    | some (Dest.dbool a) =>
      let vis := if value != "" && value != "true" && value != "false" then false
                 else valueIsSeparate
      .ok ⟨updStore st a (Val.vbool (value != "false")), none, true, vis⟩
    | some (Dest.dstr a) =>
      if value = "" then .error (missingMsg flag)
      else .ok ⟨updStore st a (Val.vstr value), none, true, valueIsSeparate⟩
    | some (Dest.dint a) =>
      if value = "" then .error (missingMsg flag)
      else .ok ⟨updStore st a (Val.vint (readInt value)), none, true, valueIsSeparate⟩

/-- The while loop of `CommandLine::parse` over the remaining tokens,
accumulating warnings.  A thrown `std::runtime_error` aborts the loop with
the destinations as they were before the failing token (the throw happens
before any write for that token); `++i` always advances one token, and a
second `++i` skips the following token when `foundArgument &&
valueIsSeparate` (CommandLine.cpp:166-173). -/
def parseTokens (cl : CommandLine) : List String → Store → List String → Store × List String × Option String
  | [], st, ws => (st, ws, none)
  | tok :: rest, st, ws =>
    match procTok cl tok st with
    | .error e => (st, ws, some e)
    | .ok r =>
      let ws' := ws ++ r.warn.toList
      if r.found && r.valueIsSeparate then
        match rest with
        | [] => (r.store, ws', none)
        | _ :: rest2 => parseTokens cl rest2 r.store ws'
      else
        parseTokens cl rest r.store ws'

/-- `CommandLine::parse`: walk `argv` from index 1 (index 0 is the program
name, CommandLine.cpp:79-80), returning the final store, the warnings
printed to `std::cerr`, and the fatal error if one was thrown. -/
def parse (cl : CommandLine) (argv : List String) (st : Store) : Store × List String × Option String :=
  parseTokens cl (argv.drop 1) st []

/-! ### Help rendering (CommandLine.cpp:20-73) -/

/-- Combined flag length of one argument: each alias contributes its length
plus 2 for the `", "` separator (CommandLine.cpp:32-36). -/
def flagLength (arg : Argument) : Nat :=
  (arg.mFlags.map (fun f => f.length + 2)).sum

/-- Longest combined flag length across all registered arguments
(CommandLine.cpp:29-39). -/
def maxFlagLength (cl : CommandLine) : Nat :=
  (cl.mArguments.map flagLength).foldl max 0

/-- The comma-joined alias block: concatenate `flag + ", "` then drop the
trailing separator (CommandLine.cpp:44-53). -/
def joinFlags (fs : List String) : String :=
  (String.join (fs.map (fun f => f ++ ", "))).dropRight 2

/-- `std::left << std::setw w`: pad on the right with spaces up to width
`w` (no effect when the text is already at least that wide). -/
def padRightTo (w : Nat) (s : String) : String :=
  s ++ String.mk (List.replicate (w - s.length) ' ')

/-- The continuation-line padding `std::left << std::setw (maxFlagLength-1)
<< " "` (CommandLine.cpp:68). -/
def contPad (maxLen : Nat) : String :=
  padRightTo (maxLen - 1) " "

/-- The help-text segments the wrap loop emits, one per iteration
(CommandLine.cpp:59-63): `find_first_of(' ', spacePos + 1)` searches
strictly past the current position, so each segment consumes one character
unconditionally and then runs to (not including) the next space; every
segment after the first begins with the space it was split at.  The loop
body runs once even for an empty help string.
`segsGo` scans the remaining characters carrying the current segment in
reverse: a space closes the current segment and opens a new one starting
with that space. -/
def segsGo : List Char → List Char → List (List Char)
  | [], cur => [cur.reverse]
  | c :: rest, cur =>
    if c = ' ' then cur.reverse :: segsGo rest [c]
    else segsGo rest (c :: cur)

def segs (cs : List Char) : List (List Char) :=
  match cs with
  | [] => [[]]
  | c :: rest => segsGo rest [c]

/-- The wrap loop of `printHelp` (CommandLine.cpp:57-71) over the segment
list, carrying the accumulated line `acc` and `lineWidth`.  A line is
flushed (printed with `std::endl`) when the accumulated width exceeds 60;
the final segment always flushes, because there `nextspacePos` is `npos`
and `lineWidth += npos - spacePos` overflows far past 60.  After a flush
the next line starts as `maxFlagLength - 1` padding; the padding prepared
after the last flush is discarded when the loop exits. -/
def wrapLines (maxLen : Nat) : List (List Char) → List Char → Nat → List (List Char)
  | [], _, _ => []
  | [seg], acc, _ => [acc ++ seg]
  | seg :: s2 :: r2, acc, width =>
    if 60 < width + seg.length then
      (acc ++ seg) :: wrapLines maxLen (s2 :: r2) (contPad maxLen).toList 0
    else
      wrapLines maxLen (s2 :: r2) (acc ++ seg) (width + seg.length)

/-- The lines printed for one argument: the alias block left-aligned to
`maxLen` starts the first line, then the help text is wrapped
(CommandLine.cpp:42-72). -/
def renderArg (maxLen : Nat) (arg : Argument) : List String :=
  (wrapLines maxLen (segs arg.mHelp.toList)
      (padRightTo maxLen (joinFlags arg.mFlags)).toList 0).map String.mk

/-- `CommandLine::printHelp`: the description line followed by every
argument's lines, in registration order (CommandLine.cpp:20-73). -/
def printHelp (cl : CommandLine) : List String :=
  cl.mDescription :: (cl.mArguments.map (renderArg (maxFlagLength cl))).flatten

/-- The value `CommandLine::parse` decodes into destination `d` from the
attached value string (the three write branches of the loop body). -/
def tokDecode (d : Dest) (value : String) : Val :=
  match d with
  | .dbool _ => .vbool (value != "false")
  | .dstr _ => .vstr value
  | .dint _ => .vint (readInt value)

/-! ### Concrete objects used in witnesses and counterexamples -/

/-- A small registry: a boolean flag, a numeric flag, a string flag and a
presence-only flag. -/
def clDemo : CommandLine :=
  ⟨"capture raw audio",
   [⟨["-b", "--bool"], some (Dest.dbool 0), "a boolean flag"⟩,
    ⟨["-r", "--rate"], some (Dest.dint 1), "sample rate"⟩,
    ⟨["-n", "--name"], some (Dest.dstr 2), "device name"⟩,
    ⟨["-l"], none, "list devices"⟩]⟩

/-- An initial store whose every cell holds the integer 7. -/
def stZ : Store := fun _ => Val.vint 7

/-- Registry holding one argument whose only alias itself contains `'='`. -/
def clEq : CommandLine :=
  ⟨"d", [⟨["--weird=flag"], some (Dest.dstr 0), "h"⟩]⟩

/-- Registry with two arguments whose alias blocks are 10 and 20 characters
wide (the help-alignment example of the spec). -/
def clAlign : CommandLine :=
  ⟨"desc",
   [⟨["--abcdef"], some (Dest.dbool 0),
      "first flag with a help text long enough to be wrapped over more than one line by the sixty character soft limit"⟩,
    ⟨["--abcdefghijklmnop"], some (Dest.dstr 1), "second flag"⟩]⟩

/-! ## Lemmas about token splitting -/

theorem splitEq_eq_none_iff (cs : List Char) : splitEq cs = none ↔ '=' ∉ cs := by
  induction cs with
  | nil => simp [splitEq]
  | cons c cs ih =>
    by_cases hc : c = '='
    · subst hc; simp [splitEq]
    · rw [splitEq, if_neg hc]
      cases h : splitEq cs with
      | none =>
        have hmem : '=' ∉ c :: cs := by
          simp only [List.mem_cons, not_or]
          exact ⟨fun he => hc he.symm, ih.mp h⟩
        exact iff_of_true rfl hmem
      | some p =>
        rcases p with ⟨pre, post⟩
        have hmem : ¬ '=' ∉ c :: cs := by
          intro hn
          have hcs : '=' ∉ cs := fun hm => hn (by simp [hm])
          rw [ih.mpr hcs] at h
          cases h
        exact iff_of_false (by simp) hmem

theorem splitEq_some_spec (cs pre post : List Char)
    (h : splitEq cs = some (pre, post)) :
    cs = pre ++ '=' :: post ∧ '=' ∉ pre := by
  induction cs generalizing pre post with
  | nil => simp [splitEq] at h
  | cons c cs ih =>
    by_cases hc : c = '='
    · subst hc
      rw [splitEq, if_pos rfl] at h
      cases h
      exact ⟨rfl, by simp⟩
    · rw [splitEq, if_neg hc] at h
      cases h2 : splitEq cs with
      | none => rw [h2] at h; cases h
      | some p =>
        rcases p with ⟨pre2, post2⟩
        rw [h2] at h
        rw [Option.some.injEq, Prod.mk.injEq] at h
        obtain ⟨h3, h4⟩ := h
        subst h3; subst h4
        rcases ih pre2 post2 h2 with ⟨hcs, hpre⟩
        constructor
        · rw [hcs]; rfl
        · simp only [List.mem_cons, not_or]
          exact ⟨fun he => hc he.symm, hpre⟩

theorem splitEq_append_eq (pre post : List Char) (h : '=' ∉ pre) :
    splitEq (pre ++ '=' :: post) = some (pre, post) := by
  induction pre with
  | nil => simp [splitEq]
  | cons c cs ih =>
    have hc : ¬ c = '=' := fun he => h (by simp [he])
    have hcs : '=' ∉ cs := fun hm => h (by simp [hm])
    show splitEq (c :: (cs ++ '=' :: post)) = some (c :: cs, post)
    rw [splitEq, if_neg hc, ih hcs]

/-- The flag part of any token contains no `'='`. -/
theorem splitToken_flag_no_eq (tok : String) : '=' ∉ (splitToken tok).1.toList := by
  unfold splitToken
  cases h : splitEq tok.toList with
  | none => exact (splitEq_eq_none_iff tok.toList).mp h
  | some p =>
    rcases p with ⟨pre, post⟩
    exact (splitEq_some_spec tok.toList pre post h).2

/-- A token without `'='` is all flag, with an empty value. -/
theorem splitToken_of_no_eq (tok : String) (h : '=' ∉ tok.toList) :
    splitToken tok = (tok, "") := by
  unfold splitToken
  rw [(splitEq_eq_none_iff tok.toList).mpr h]

/-- Splitting `flag ++ "=" ++ value` when the flag itself has no `'='`:
the split happens at the FIRST `'='`, so the whole remainder (embedded
`'='` characters included) becomes the value. -/
theorem splitToken_concat (flag value : String) (h : '=' ∉ flag.toList) :
    splitToken (flag ++ "=" ++ value) = (flag, value) := by
  have hdata : (flag ++ "=" ++ value).toList = flag.toList ++ '=' :: value.toList := by
    show (flag ++ "=" ++ value).data = flag.data ++ '=' :: value.data
    rw [String.data_append, String.data_append,
      show "=".data = ['='] from rfl, List.append_assoc]
    rfl
  unfold splitToken
  rw [hdata, splitEq_append_eq flag.toList value.toList h]
  show (String.mk flag.data, String.mk value.data) = (flag, value)
  rfl

/-! ## Lemmas about the parse loop -/

/-- `valueIsSeparate` is never `true` after the loop body: the branch that
would set it is commented out, and the boolean branch can only clear it. -/
theorem procTok_vis_false (cl : CommandLine) (tok : String) (st : Store)
    (r : StepR) (h : procTok cl tok st = .ok r) : r.valueIsSeparate = false := by
  simp only [procTok] at h
  cases hf : findArg cl (splitToken tok).1 with
  | none => simp only [hf] at h; cases h; rfl
  | some arg =>
    simp only [hf] at h
    cases hv : arg.mValue with
    | none => simp only [hv] at h; cases h; rfl
    | some d =>
      simp only [hv] at h
      cases d with
      | dbool a =>
        simp only at h
        cases h
        exact ite_self false
      | dstr a =>
        simp only at h
        by_cases he : (splitToken tok).2 = ""
        · rw [if_pos he] at h; cases h
        · rw [if_neg he] at h; cases h; rfl
      | dint a =>
        simp only at h
        by_cases he : (splitToken tok).2 = ""
        · rw [if_pos he] at h; cases h
        · rw [if_neg he] at h; cases h; rfl

/-- Unfolding the loop at a token whose iteration throws. -/
theorem parseTokens_cons_err (cl : CommandLine) (tok : String) (rest : List String)
    (st : Store) (ws : List String) (e : String)
    (h : procTok cl tok st = .error e) :
    parseTokens cl (tok :: rest) st ws = (st, ws, some e) := by
  simp only [parseTokens, h]

/-- Unfolding the loop at a token whose iteration succeeds: the loop goes
on with the remaining tokens (one token consumed: the skip-next-token
branch is dead because `valueIsSeparate` is always `false`). -/
theorem parseTokens_cons_ok (cl : CommandLine) (tok : String) (rest : List String)
    (st : Store) (ws : List String) (r : StepR)
    (h : procTok cl tok st = .ok r) :
    parseTokens cl (tok :: rest) st ws =
      parseTokens cl rest r.store (ws ++ r.warn.toList) := by
  have hv := procTok_vis_false cl tok st r h
  simp [parseTokens, h, hv]

/-- The loop at an exhausted token list. -/
theorem parseTokens_nil (cl : CommandLine) (st : Store) (ws : List String) :
    parseTokens cl [] st ws = (st, ws, none) := rfl

/-- One unfolding of the loop, in match form. -/
theorem parseTokens_cons (cl : CommandLine) (tok : String) (rest : List String)
    (st : Store) (ws : List String) :
    parseTokens cl (tok :: rest) st ws =
      match procTok cl tok st with
      | .error e => (st, ws, some e)
      | .ok r => parseTokens cl rest r.store (ws ++ r.warn.toList) := by
  cases h : procTok cl tok st with
  | error e => exact parseTokens_cons_err cl tok rest st ws e h
  | ok r => exact parseTokens_cons_ok cl tok rest st ws r h

/-- The warning accumulator only gets appended to: the store and the error
outcome do not depend on it. -/
theorem parseTokens_ws (cl : CommandLine) (toks : List String) (st : Store)
    (ws : List String) :
    parseTokens cl toks st ws =
      ((parseTokens cl toks st []).1,
       ws ++ (parseTokens cl toks st []).2.1,
       (parseTokens cl toks st []).2.2) := by
  induction toks generalizing st ws with
  | nil => simp [parseTokens]
  | cons tok rest ih =>
    cases h : procTok cl tok st with
    | error e =>
      rw [parseTokens_cons_err cl tok rest st ws e h,
        parseTokens_cons_err cl tok rest st [] e h]
      simp
    | ok r =>
      rw [parseTokens_cons_ok cl tok rest st ws r h,
        parseTokens_cons_ok cl tok rest st [] r h]
      rw [ih r.store (ws ++ r.warn.toList), ih r.store ([] ++ r.warn.toList)]
      simp

/-- Splitting the token list: the loop runs the first part to completion
and, unless it aborted there, continues with the second from the store the
first part produced. -/
theorem parseTokens_append (cl : CommandLine) (xs ys : List String) (st : Store)
    (ws : List String) :
    parseTokens cl (xs ++ ys) st ws =
      match parseTokens cl xs st ws with
      | (st1, ws1, none) => parseTokens cl ys st1 ws1
      | (st1, ws1, some e) => (st1, ws1, some e) := by
  induction xs generalizing st ws with
  | nil => simp [parseTokens]
  | cons tok rest ih =>
    rw [List.cons_append]
    cases h : procTok cl tok st with
    | error e =>
      rw [parseTokens_cons_err cl tok (rest ++ ys) st ws e h,
        parseTokens_cons_err cl tok rest st ws e h]
    | ok r =>
      rw [parseTokens_cons_ok cl tok (rest ++ ys) st ws r h,
        parseTokens_cons_ok cl tok rest st ws r h]
      exact ih r.store (ws ++ r.warn.toList)

/-- The loop body when the token's flag matches a registered argument with
a bound destination and decoding cannot fail (boolean kind, or a non-empty
value): the destination cell is overwritten with the decoded value, nothing
else changes, no warning is emitted. -/
theorem procTok_found (cl : CommandLine) (tok : String) (st : Store)
    (arg : Argument) (d : Dest)
    (hfind : findArg cl (splitToken tok).1 = some arg)
    (hval : arg.mValue = some d)
    (hok : d.isBoolDest = true ∨ (splitToken tok).2 ≠ "") :
    procTok cl tok st =
      .ok ⟨updStore st d.addr (tokDecode d (splitToken tok).2), none, true, false⟩ := by
  simp only [procTok, hfind, hval]
  cases d with
  | dbool a =>
    simp [tokDecode, Dest.addr, ite_self]
  | dstr a =>
    have hne : (splitToken tok).2 ≠ "" := by
      rcases hok with hb | hne
      · simp [Dest.isBoolDest] at hb
      · exact hne
    simp [if_neg hne, tokDecode, Dest.addr]
  | dint a =>
    have hne : (splitToken tok).2 ≠ "" := by
      rcases hok with hb | hne
      · simp [Dest.isBoolDest] at hb
      · exact hne
    simp [if_neg hne, tokDecode, Dest.addr]

theorem updStore_self (st : Store) (a : Nat) (v : Val) : updStore st a v a = v := by
  simp [updStore]

theorem updStore_other (st : Store) (a b : Nat) (v : Val) (h : b ≠ a) :
    updStore st a v b = st b := by
  simp [updStore, h]

/-- The loop body when the token's flag matches a registered argument whose
destination requires a value the token does not carry: the iteration throws
(CommandLine.cpp:131-137). -/
theorem procTok_missing (cl : CommandLine) (tok : String) (st : Store)
    (arg : Argument) (d : Dest)
    (hfind : findArg cl (splitToken tok).1 = some arg)
    (hval : arg.mValue = some d)
    (hnb : d.isBoolDest = false)
    (hempty : (splitToken tok).2 = "") :
    procTok cl tok st = .error (missingMsg (splitToken tok).1) := by
  cases d with
  | dbool a => simp [Dest.isBoolDest] at hnb
  | dstr a => simp [procTok, hfind, hval, hempty]
  | dint a => simp [procTok, hfind, hval, hempty]

/-- The loop body at an unknown flag: nothing is written, a warning is
emitted, the loop moves on (CommandLine.cpp:159-164). -/
theorem procTok_unknown (cl : CommandLine) (tok : String) (st : Store)
    (hfind : findArg cl (splitToken tok).1 = none) :
    procTok cl tok st = .ok ⟨st, some (warnMsg (splitToken tok).1), false, false⟩ := by
  simp only [procTok, hfind]

/-- Combined step: a token matched to `arg` with destination `d`, decoding
non-failing, makes the loop continue over the rest with just cell `d.addr`
overwritten and no warning. -/
theorem parseTokens_cons_found (cl : CommandLine) (tok : String) (rest : List String)
    (st : Store) (ws : List String) (arg : Argument) (d : Dest)
    (hfind : findArg cl (splitToken tok).1 = some arg)
    (hval : arg.mValue = some d)
    (hok : d.isBoolDest = true ∨ (splitToken tok).2 ≠ "") :
    parseTokens cl (tok :: rest) st ws =
      parseTokens cl rest (updStore st d.addr (tokDecode d (splitToken tok).2)) ws := by
  rw [parseTokens_cons_ok cl tok rest st ws _ (procTok_found cl tok st arg d hfind hval hok)]
  simp

/-! ## Claims -/

/-- C1: for every registered flag bound to a non-boolean destination
(string or numeric), a token matching one of its aliases with an empty
value makes the whole parse abort with an error whose message embeds the
offending flag; no further token (of `rest`) is processed: the outcome is
whatever the state was when the failing token was reached, independent of
`rest`. -/
theorem missingValue_aborts_parse (cl : CommandLine) (tok : String)
    (rest : List String) (st : Store) (ws : List String)
    (arg : Argument) (d : Dest)
    (hfind : findArg cl (splitToken tok).1 = some arg)
    (hval : arg.mValue = some d)
    (hnb : d.isBoolDest = false)
    (hempty : (splitToken tok).2 = "") :
    parseTokens cl (tok :: rest) st ws =
      (st, ws, some (missingMsg (splitToken tok).1)) ∧
    missingMsg (splitToken tok).1 =
      "Failed to parse command line arguments: Missing value for argument \"" ++
        (splitToken tok).1 ++ "\"!" := by
  refine ⟨?_, rfl⟩
  exact parseTokens_cons_err cl tok rest st ws _
    (procTok_missing cl tok st arg d hfind hval hnb hempty)

theorem missingValue_aborts_parse_witness :
    parseTokens clDemo ["--rate=", "--name=x"] stZ [] =
      (stZ, [], some (missingMsg (splitToken "--rate=").1)) ∧
    missingMsg (splitToken "--rate=").1 =
      "Failed to parse command line arguments: Missing value for argument \"" ++
        (splitToken "--rate=").1 ++ "\"!" :=
  missingValue_aborts_parse clDemo "--rate=" ["--name=x"] stZ []
    ⟨["-r", "--rate"], some (Dest.dint 1), "sample rate"⟩ (Dest.dint 1)
    rfl rfl rfl rfl

/-- C2: for every registered flag bound to a boolean destination, a
matching token sets the destination to `value != "false"`: `true` when the
value is omitted, `false` exactly for the attached literal `"false"`, and
`true` for any other attached literal. -/
theorem bool_flag_assignment (cl : CommandLine) (prog tok : String) (st : Store)
    (arg : Argument) (a : Nat)
    (hfind : findArg cl (splitToken tok).1 = some arg)
    (hval : arg.mValue = some (Dest.dbool a)) :
    (parse cl [prog, tok] st).1 a = Val.vbool ((splitToken tok).2 != "false") ∧
    ((splitToken tok).2 = "" → (parse cl [prog, tok] st).1 a = Val.vbool true) ∧
    ((splitToken tok).2 = "false" → (parse cl [prog, tok] st).1 a = Val.vbool false) ∧
    ((splitToken tok).2 ≠ "false" → (parse cl [prog, tok] st).1 a = Val.vbool true) := by
  have hstep := procTok_found cl tok st arg (Dest.dbool a) hfind hval (Or.inl rfl)
  have hmain : (parse cl [prog, tok] st).1 a = Val.vbool ((splitToken tok).2 != "false") := by
    show (parseTokens cl [tok] st []).1 a = _
    rw [parseTokens_cons_ok cl tok [] st [] _ hstep, parseTokens_nil]
    show updStore st a (Val.vbool ((splitToken tok).2 != "false")) a = _
    rw [updStore_self]
  refine ⟨hmain, ?_, ?_, ?_⟩
  · intro he; rw [hmain, he]; rfl
  · intro he; rw [hmain, he]; rfl
  · intro hne; rw [hmain]
    congr 1
    exact bne_iff_ne.mpr hne

theorem bool_flag_assignment_witness :
    ((parse clDemo ["prog", "--bool"] stZ).1 0 =
      Val.vbool ((splitToken "--bool").2 != "false") ∧
    ((splitToken "--bool").2 = "" → (parse clDemo ["prog", "--bool"] stZ).1 0 = Val.vbool true) ∧
    ((splitToken "--bool").2 = "false" →
      (parse clDemo ["prog", "--bool"] stZ).1 0 = Val.vbool false) ∧
    ((splitToken "--bool").2 ≠ "false" →
      (parse clDemo ["prog", "--bool"] stZ).1 0 = Val.vbool true)) ∧
    ((parse clDemo ["prog", "--bool=false"] stZ).1 0 =
      Val.vbool ((splitToken "--bool=false").2 != "false") ∧
    ((splitToken "--bool=false").2 = "" →
      (parse clDemo ["prog", "--bool=false"] stZ).1 0 = Val.vbool true) ∧
    ((splitToken "--bool=false").2 = "false" →
      (parse clDemo ["prog", "--bool=false"] stZ).1 0 = Val.vbool false) ∧
    ((splitToken "--bool=false").2 ≠ "false" →
      (parse clDemo ["prog", "--bool=false"] stZ).1 0 = Val.vbool true)) :=
  ⟨bool_flag_assignment clDemo "prog" "--bool" stZ
      ⟨["-b", "--bool"], some (Dest.dbool 0), "a boolean flag"⟩ 0 rfl rfl,
   bool_flag_assignment clDemo "prog" "--bool=false" stZ
      ⟨["-b", "--bool"], some (Dest.dbool 0), "a boolean flag"⟩ 0 rfl rfl⟩

/-- C3, counterexample to the claim as stated: `--rate=abc` on a numeric
flag whose destination held 7 neither raises an error nor leaves the
destination unchanged — stream extraction fails and (per the C++11
semantics of `operator>>`) writes 0 over the 7. -/
theorem malformed_numeric_cex :
    (parse clDemo ["prog", "--rate=abc"] stZ).2.2 = none ∧
    (parse clDemo ["prog", "--rate=abc"] stZ).1 1 = Val.vint 0 ∧
    stZ 1 = Val.vint 7 ∧
    (parse clDemo ["prog", "--rate=abc"] stZ).1 1 ≠ stZ 1 := by
  refine ⟨rfl, rfl, rfl, ?_⟩
  intro h
  have h0 : Val.vint 0 = Val.vint 7 := by
    calc Val.vint 0 = (parse clDemo ["prog", "--rate=abc"] stZ).1 1 := rfl
      _ = stZ 1 := h
      _ = Val.vint 7 := rfl
  cases h0

/-- C3, amended: for every registered flag bound to a numeric destination,
a matching token with a non-empty value never raises an error, but the
destination is overwritten with the stream-extraction result — in
particular 0 (not the previous value) whenever the text has no parseable
numeric prefix. -/
theorem malformed_numeric_overwrites (cl : CommandLine) (prog tok : String)
    (st : Store) (arg : Argument) (a : Nat)
    (hfind : findArg cl (splitToken tok).1 = some arg)
    (hval : arg.mValue = some (Dest.dint a))
    (hne : (splitToken tok).2 ≠ "") :
    (parse cl [prog, tok] st).2.2 = none ∧
    (parse cl [prog, tok] st).1 a = Val.vint (readInt (splitToken tok).2) ∧
    (extractIntCore (splitToken tok).2.toList = none →
      (parse cl [prog, tok] st).1 a = Val.vint 0) := by
  have hstep := procTok_found cl tok st arg (Dest.dint a) hfind hval (Or.inr hne)
  have hrun : parse cl [prog, tok] st =
      (updStore st a (Val.vint (readInt (splitToken tok).2)), [], none) := by
    show parseTokens cl [tok] st [] = _
    rw [parseTokens_cons_ok cl tok [] st [] _ hstep, parseTokens_nil]
    rfl
  refine ⟨by rw [hrun], by rw [hrun]; exact updStore_self st a _, ?_⟩
  intro hext
  rw [hrun]
  show updStore st a (Val.vint (readInt (splitToken tok).2)) a = _
  rw [updStore_self]
  unfold readInt
  rw [hext]

theorem malformed_numeric_overwrites_witness :
    (parse clDemo ["prog", "--rate=abc"] stZ).2.2 = none ∧
    (parse clDemo ["prog", "--rate=abc"] stZ).1 1 =
      Val.vint (readInt (splitToken "--rate=abc").2) ∧
    (extractIntCore (splitToken "--rate=abc").2.toList = none →
      (parse clDemo ["prog", "--rate=abc"] stZ).1 1 = Val.vint 0) :=
  malformed_numeric_overwrites clDemo "prog" "--rate=abc" stZ
    ⟨["-r", "--rate"], some (Dest.dint 1), "sample rate"⟩ 1
    rfl rfl (by decide)

/-- C5: a token matching no registered alias adds one warning embedding
the token's flag part (the token itself when it carries no `'='`) and the
parse continues: the final store and the error outcome over the remaining
tokens are exactly those of a parse run without the unknown token. -/
theorem unknown_flag_warns_and_continues (cl : CommandLine) (tok : String)
    (rest : List String) (st : Store) (ws : List String)
    (hfind : findArg cl (splitToken tok).1 = none) :
    parseTokens cl (tok :: rest) st ws =
      parseTokens cl rest st (ws ++ [warnMsg (splitToken tok).1]) ∧
    (parseTokens cl (tok :: rest) st ws).1 = (parseTokens cl rest st ws).1 ∧
    (parseTokens cl (tok :: rest) st ws).2.2 = (parseTokens cl rest st ws).2.2 ∧
    ('=' ∉ tok.toList → warnMsg (splitToken tok).1 = warnMsg tok) := by
  have hstep := procTok_unknown cl tok st
  have hcons : parseTokens cl (tok :: rest) st ws =
      parseTokens cl rest st (ws ++ [warnMsg (splitToken tok).1]) := by
    rw [parseTokens_cons_ok cl tok rest st ws _ (hstep hfind)]
    rfl
  refine ⟨hcons, ?_, ?_, ?_⟩
  · rw [hcons, parseTokens_ws cl rest st (ws ++ [warnMsg (splitToken tok).1]),
      parseTokens_ws cl rest st ws]
  · rw [hcons, parseTokens_ws cl rest st (ws ++ [warnMsg (splitToken tok).1]),
      parseTokens_ws cl rest st ws]
  · intro h
    rw [splitToken_of_no_eq tok h]

/-- C6: for every registered flag bound to a string destination, a token
`flag=value` (the alias containing no `'='` itself) is split at its first
`'='` and the entire remainder — embedded `'='` characters included — is
assigned verbatim to the destination. -/
theorem string_flag_verbatim (cl : CommandLine) (prog flag value : String)
    (st : Store) (arg : Argument) (a : Nat)
    (hfe : '=' ∉ flag.toList)
    (hfind : findArg cl flag = some arg)
    (hval : arg.mValue = some (Dest.dstr a))
    (hv : value ≠ "") :
    splitToken (flag ++ "=" ++ value) = (flag, value) ∧
    (parse cl [prog, flag ++ "=" ++ value] st).2.2 = none ∧
    (parse cl [prog, flag ++ "=" ++ value] st).1 a = Val.vstr value := by
  have hsplit := splitToken_concat flag value hfe
  have hfind2 : findArg cl (splitToken (flag ++ "=" ++ value)).1 = some arg := by
    rw [hsplit]; exact hfind
  have hv2 : (splitToken (flag ++ "=" ++ value)).2 ≠ "" := by
    rw [hsplit]; exact hv
  have hrun : parse cl [prog, flag ++ "=" ++ value] st =
      (updStore st a (Val.vstr value), [], none) := by
    show parseTokens cl [flag ++ "=" ++ value] st [] = _
    rw [parseTokens_cons_found cl _ [] st [] arg (Dest.dstr a) hfind2 hval
        (Or.inr hv2), parseTokens_nil]
    rw [show Dest.addr (Dest.dstr a) = a from rfl,
      show tokDecode (Dest.dstr a) (splitToken (flag ++ "=" ++ value)).2 =
        Val.vstr (splitToken (flag ++ "=" ++ value)).2 from rfl, hsplit]
  exact ⟨hsplit, by rw [hrun], by rw [hrun]; exact updStore_self st a _⟩

theorem string_flag_verbatim_witness :
    splitToken ("--name" ++ "=" ++ "x=y") = ("--name", "x=y") ∧
    (parse clDemo ["prog", "--name" ++ "=" ++ "x=y"] stZ).2.2 = none ∧
    (parse clDemo ["prog", "--name" ++ "=" ++ "x=y"] stZ).1 2 = Val.vstr "x=y" :=
  string_flag_verbatim clDemo "prog" "--name" "x=y" stZ
    ⟨["-n", "--name"], some (Dest.dstr 2), "device name"⟩ 2
    (by decide) rfl rfl (by decide)

/-- C7: every successful loop iteration leaves `valueIsSeparate` false, so
the parse consumes exactly one argv token per iteration: the loop continues
with `rest` itself, never skipping the token after the flag (a value can
only come from the same token, via `'='`). -/
theorem one_token_per_iteration (cl : CommandLine) (tok : String) (st : Store)
    (rest : List String) (ws : List String) (r : StepR)
    (h : procTok cl tok st = .ok r) :
    r.valueIsSeparate = false ∧
    parseTokens cl (tok :: rest) st ws = parseTokens cl rest r.store (ws ++ r.warn.toList) :=
  ⟨procTok_vis_false cl tok st r h, parseTokens_cons_ok cl tok rest st ws r h⟩

theorem one_token_per_iteration_witness :
    procTok clDemo "--rate=48000" stZ =
      .ok ⟨updStore stZ 1 (Val.vint 48000), none, true, false⟩ ∧
    ((⟨updStore stZ 1 (Val.vint 48000), none, true, false⟩ : StepR).valueIsSeparate = false ∧
     parseTokens clDemo ("--rate=48000" :: ["--bool"]) stZ [] =
       parseTokens clDemo ["--bool"]
         (⟨updStore stZ 1 (Val.vint 48000), none, true, false⟩ : StepR).store
         ([] ++ (⟨updStore stZ 1 (Val.vint 48000), none, true, false⟩ : StepR).warn.toList)) :=
  ⟨rfl, one_token_per_iteration clDemo "--rate=48000" stZ ["--bool"] []
      ⟨updStore stZ 1 (Val.vint 48000), none, true, false⟩ rfl⟩

/-- C8: when the parse aborts with a missing-value error at some token,
the outcome is exactly the store and warnings accumulated over the earlier
tokens — writes already applied are kept, nothing is rolled back, and the
tokens after the failing one contribute nothing. -/
theorem abort_keeps_prior_writes (cl : CommandLine) (pre : List String)
    (bad : String) (post : List String) (st st1 : Store)
    (ws ws1 : List String) (e : String)
    (hpre : parseTokens cl pre st ws = (st1, ws1, none))
    (hbad : procTok cl bad st1 = .error e) :
    parseTokens cl (pre ++ bad :: post) st ws = (st1, ws1, some e) := by
  rw [parseTokens_append, hpre]
  exact parseTokens_cons_err cl bad post st1 ws1 e hbad

theorem abort_keeps_prior_writes_witness :
    parseTokens clDemo ["--bool"] stZ [] = (updStore stZ 0 (Val.vbool true), [], none) ∧
    procTok clDemo "--rate=" (updStore stZ 0 (Val.vbool true)) =
      .error (missingMsg "--rate") ∧
    parseTokens clDemo (["--bool"] ++ "--rate=" :: ["--name=x"]) stZ [] =
      (updStore stZ 0 (Val.vbool true), [], some (missingMsg "--rate")) ∧
    updStore stZ 0 (Val.vbool true) 0 = Val.vbool true ∧
    updStore stZ 0 (Val.vbool true) 2 = stZ 2 :=
  ⟨rfl, rfl,
   abort_keeps_prior_writes clDemo ["--bool"] "--rate=" ["--name=x"] stZ
     (updStore stZ 0 (Val.vbool true)) [] [] (missingMsg "--rate") rfl rfl,
   rfl, rfl⟩

/-- C9: when every token of the list matches the same registered argument
(and none makes the parse abort), the loop processes them left to right
without error or warning, and the bound destination ends the parse holding
the value decoded from the last occurrence. -/
theorem last_occurrence_wins (cl : CommandLine) (toks : List String) (st : Store)
    (ws : List String) (arg : Argument) (d : Dest) (tlast : String)
    (hlast : toks.getLast? = some tlast)
    (hall : ∀ t ∈ toks, findArg cl (splitToken t).1 = some arg)
    (hval : arg.mValue = some d)
    (hok : ∀ t ∈ toks, d.isBoolDest = true ∨ (splitToken t).2 ≠ "") :
    (parseTokens cl toks st ws).2.2 = none ∧
    (parseTokens cl toks st ws).2.1 = ws ∧
    (parseTokens cl toks st ws).1 d.addr = tokDecode d (splitToken tlast).2 := by
  induction toks generalizing st ws with
  | nil => simp at hlast
  | cons t rest ih =>
    have hmem : t ∈ t :: rest := List.mem_cons_self t rest
    have hstep := parseTokens_cons_found cl t rest st ws arg d
      (hall t hmem) hval (hok t hmem)
    cases rest with
    | nil =>
      have ht : tlast = t := by
        simp only [List.getLast?_singleton, Option.some.injEq] at hlast
        exact hlast.symm
      subst ht
      rw [hstep, parseTokens_nil]
      exact ⟨rfl, rfl, updStore_self st d.addr _⟩
    | cons t2 r2 =>
      have hlast2 : (t2 :: r2).getLast? = some tlast := by
        rw [List.getLast?_cons_cons] at hlast
        exact hlast
      have hall2 : ∀ x ∈ t2 :: r2, findArg cl (splitToken x).1 = some arg :=
        fun x hx => hall x (List.mem_cons_of_mem t hx)
      have hok2 : ∀ x ∈ t2 :: r2, d.isBoolDest = true ∨ (splitToken x).2 ≠ "" :=
        fun x hx => hok x (List.mem_cons_of_mem t hx)
      rw [hstep]
      exact ih (updStore st d.addr (tokDecode d (splitToken t).2)) ws hlast2 hall2 hok2

theorem last_occurrence_wins_witness :
    (["--rate=1", "--rate=2"].getLast? = some "--rate=2") ∧
    (parseTokens clDemo ["--rate=1", "--rate=2"] stZ []).2.2 = none ∧
    (parseTokens clDemo ["--rate=1", "--rate=2"] stZ []).2.1 = [] ∧
    (parseTokens clDemo ["--rate=1", "--rate=2"] stZ []).1 (Dest.dint 1).addr =
      tokDecode (Dest.dint 1) (splitToken "--rate=2").2 :=
  ⟨rfl,
   last_occurrence_wins clDemo ["--rate=1", "--rate=2"] stZ []
     ⟨["-r", "--rate"], some (Dest.dint 1), "sample rate"⟩ (Dest.dint 1) "--rate=2"
     rfl (by decide) rfl (by decide)⟩

/-- C10: the string compared against the registered aliases is the part of
the token strictly before its first `'='` and thus never contains `'='`;
an argument all of whose aliases contain `'='` can therefore never be the
result of the alias lookup, for any input token. -/
theorem alias_containing_eq_unreachable (cl : CommandLine) (arg : Argument)
    (tok : String)
    (hall : ∀ f ∈ arg.mFlags, '=' ∈ f.toList) :
    '=' ∉ (splitToken tok).1.toList ∧
    findArg cl (splitToken tok).1 ≠ some arg := by
  refine ⟨splitToken_flag_no_eq tok, ?_⟩
  intro hfind
  have hfind2 : cl.mArguments.find? (fun a => a.mFlags.contains (splitToken tok).1) =
      some arg := hfind
  have hp := List.find?_some hfind2
  have hmem : (splitToken tok).1 ∈ arg.mFlags := by
    simpa using hp
  exact splitToken_flag_no_eq tok (hall _ hmem)

theorem alias_containing_eq_unreachable_witness :
    (∀ f ∈ (⟨["--weird=flag"], some (Dest.dstr 0), "h"⟩ : Argument).mFlags,
      '=' ∈ f.toList) ∧
    ('=' ∉ (splitToken "--weird=flag").1.toList ∧
     findArg clEq (splitToken "--weird=flag").1 ≠
       some ⟨["--weird=flag"], some (Dest.dstr 0), "h"⟩) :=
  ⟨by decide,
   alias_containing_eq_unreachable clEq
     ⟨["--weird=flag"], some (Dest.dstr 0), "h"⟩ "--weird=flag" (by decide)⟩

/-! ## Help-rendering lemmas for C4 -/

theorem segsGo_cons_shape (cs cur : List Char) :
    ∃ s0 srest, segsGo cs cur = s0 :: srest := by
  induction cs generalizing cur with
  | nil => exact ⟨cur.reverse, [], rfl⟩
  | cons c rest ih =>
    by_cases hc : c = ' '
    · exact ⟨cur.reverse, segsGo rest [c], by rw [segsGo, if_pos hc]⟩
    · rcases ih (c :: cur) with ⟨s0, srest, h⟩
      exact ⟨s0, srest, by rw [segsGo, if_neg hc]; exact h⟩

/-- The wrap loop always emits at least one line and the loop body always
produces at least one segment. -/
theorem segs_cons_shape (cs : List Char) : ∃ s0 srest, segs cs = s0 :: srest := by
  cases cs with
  | nil => exact ⟨[], [], rfl⟩
  | cons c rest => exact segsGo_cons_shape rest [c]

/-- The first emitted line starts with whatever the accumulated line held
when the segment scan began (for `renderArg`: the padded alias column). -/
theorem wrapLines_head (m : Nat) (seg : List Char) (rest : List (List Char)) :
    ∀ acc w, ∃ t tail2, wrapLines m (seg :: rest) acc w = (acc ++ t) :: tail2 := by
  induction rest generalizing seg with
  | nil => exact fun acc w => ⟨seg, [], by rw [wrapLines]⟩
  | cons s2 r2 ih =>
    intro acc w
    by_cases hw : 60 < w + seg.length
    · exact ⟨seg, wrapLines m (s2 :: r2) (contPad m).toList 0,
        by rw [wrapLines, if_pos hw]⟩
    · rcases ih s2 (acc ++ seg) (w + seg.length) with ⟨t, tail2, hW⟩
      exact ⟨seg ++ t, tail2, by rw [wrapLines, if_neg hw, hW, List.append_assoc]⟩

/-- Every line after the first starts with the continuation padding
`setw (maxFlagLength - 1) << " "`. -/
theorem wrapLines_tail_pad (m : Nat) (segsL : List (List Char)) :
    ∀ acc w, ∀ line ∈ (wrapLines m segsL acc w).tail,
      ∃ t, line = (contPad m).toList ++ t := by
  induction segsL with
  | nil => intro acc w line hl; simp [wrapLines] at hl
  | cons seg rest ih =>
    intro acc w line hl
    cases rest with
    | nil => simp [wrapLines] at hl
    | cons s2 r2 =>
      rw [wrapLines] at hl
      by_cases hw : 60 < w + seg.length
      · rw [if_pos hw, List.tail_cons] at hl
        rcases wrapLines_head m s2 r2 (contPad m).toList 0 with ⟨t, tail2, hW⟩
        rw [hW] at hl
        rcases List.mem_cons.mp hl with h1 | h2
        · exact ⟨t, h1⟩
        · exact ih (contPad m).toList 0 line (by rw [hW, List.tail_cons]; exact h2)
      · rw [if_neg hw] at hl
        exact ih (acc ++ seg) (w + seg.length) line hl

theorem contPad_toList (m : Nat) (hm : 2 ≤ m) :
    (contPad m).toList = List.replicate (m - 1) ' ' := by
  show (" " ++ String.mk (List.replicate (m - 1 - " ".length) ' ')).data =
    List.replicate (m - 1) ' '
  rw [String.data_append]
  show ' ' :: List.replicate (m - 1 - 1) ' ' = List.replicate (m - 1) ' '
  rw [← List.replicate_succ]
  congr 1
  omega

/-- Every line except the last is flushed only once its accumulated help
width exceeded 60 characters, so it is longer than 60 plus the
continuation padding. -/
theorem wrapLines_dropLast_len (m : Nat) (hm : 2 ≤ m) (segsL : List (List Char)) :
    ∀ acc w, m - 1 + w ≤ acc.length →
      ∀ line ∈ (wrapLines m segsL acc w).dropLast, 60 + (m - 1) < line.length := by
  induction segsL with
  | nil => intro acc w hacc line hl; simp [wrapLines] at hl
  | cons seg rest ih =>
    intro acc w hacc line hl
    cases rest with
    | nil => simp [wrapLines] at hl
    | cons s2 r2 =>
      rw [wrapLines] at hl
      by_cases hw : 60 < w + seg.length
      · rw [if_pos hw] at hl
        rcases wrapLines_head m s2 r2 (contPad m).toList 0 with ⟨t, tail2, hW⟩
        rw [hW, List.dropLast_cons₂] at hl
        rcases List.mem_cons.mp hl with h1 | h2
        · subst h1
          rw [List.length_append]
          omega
        · have hpadlen : m - 1 + 0 ≤ (contPad m).toList.length := by
            rw [contPad_toList m hm, List.length_replicate]
            omega
          exact ih (contPad m).toList 0 hpadlen line (by rw [hW]; exact h2)
      · rw [if_neg hw] at hl
        have hacc2 : m - 1 + (w + seg.length) ≤ (acc ++ seg).length := by
          rw [List.length_append]; omega
        exact ih (acc ++ seg) (w + seg.length) hacc2 line hl

theorem padRightTo_ge (w : Nat) (s : String) : w ≤ (padRightTo w s).length := by
  show w ≤ (s ++ String.mk (List.replicate (w - s.length) ' ')).length
  rw [String.length_append]
  show w ≤ s.length + (List.replicate (w - s.length) ' ').length
  rw [List.length_replicate]
  omega

/-- C4: `printHelp` prints the description line first; then, per
registered argument in order, a block of lines whose first line starts
with the comma-joined aliases left-aligned to the longest alias block
(`maxFlagLength`, each alias contributing its length plus 2), whose
continuation lines are padded with `maxFlagLength - 1` spaces instead of
alias text, and whose non-final lines were flushed by the 60-character
soft wrap limit (so each carries more than 60 characters of help text
after its padding). -/
theorem printHelp_layout (cl : CommandLine) (hm : 2 ≤ maxFlagLength cl) :
    (printHelp cl).head? = some cl.mDescription ∧
    printHelp cl = cl.mDescription ::
      (cl.mArguments.map (renderArg (maxFlagLength cl))).flatten ∧
    (contPad (maxFlagLength cl)).toList = List.replicate (maxFlagLength cl - 1) ' ' ∧
    ∀ arg ∈ cl.mArguments,
      renderArg (maxFlagLength cl) arg ≠ [] ∧
      (∃ t, (renderArg (maxFlagLength cl) arg).head? =
          some (padRightTo (maxFlagLength cl) (joinFlags arg.mFlags) ++ t)) ∧
      (∀ line ∈ (renderArg (maxFlagLength cl) arg).tail, ∃ t,
          line = String.mk (List.replicate (maxFlagLength cl - 1) ' ') ++ t) ∧
      (∀ line ∈ (renderArg (maxFlagLength cl) arg).dropLast,
          60 + (maxFlagLength cl - 1) < line.length) := by
  refine ⟨rfl, rfl, contPad_toList _ hm, ?_⟩
  intro arg hargmem
  rcases segs_cons_shape arg.mHelp.toList with ⟨s0, srest, hsegs⟩
  have hrender : renderArg (maxFlagLength cl) arg =
      (wrapLines (maxFlagLength cl) (s0 :: srest)
        (padRightTo (maxFlagLength cl) (joinFlags arg.mFlags)).toList 0).map String.mk := by
    rw [renderArg, hsegs]
  rcases wrapLines_head (maxFlagLength cl) s0 srest
    (padRightTo (maxFlagLength cl) (joinFlags arg.mFlags)).toList 0 with ⟨t, tail2, hW⟩
  refine ⟨?_, ?_, ?_, ?_⟩
  · rw [hrender, hW]; simp
  · refine ⟨String.mk t, ?_⟩
    rw [hrender, hW]
    simp only [List.map_cons, List.head?_cons, Option.some.injEq]
    show String.mk
      ((padRightTo (maxFlagLength cl) (joinFlags arg.mFlags)).data ++ t) = _
    rfl
  · intro line hl
    rw [hrender] at hl
    have hmaptail : ((wrapLines (maxFlagLength cl) (s0 :: srest)
        (padRightTo (maxFlagLength cl) (joinFlags arg.mFlags)).toList 0).map String.mk).tail =
        ((wrapLines (maxFlagLength cl) (s0 :: srest)
          (padRightTo (maxFlagLength cl) (joinFlags arg.mFlags)).toList 0).tail).map String.mk := by
      rw [hW]; simp
    rw [hmaptail] at hl
    rcases List.mem_map.mp hl with ⟨lc, hlc, hline⟩
    rcases wrapLines_tail_pad (maxFlagLength cl) (s0 :: srest)
      (padRightTo (maxFlagLength cl) (joinFlags arg.mFlags)).toList 0 lc hlc with ⟨t2, ht2⟩
    refine ⟨String.mk t2, ?_⟩
    rw [← hline, ht2, ← contPad_toList _ hm]
    rfl
  · intro line hl
    rw [hrender] at hl
    rw [← List.map_dropLast] at hl
    rcases List.mem_map.mp hl with ⟨lc, hlc, hline⟩
    have hcollen : maxFlagLength cl - 1 + 0 ≤
        (padRightTo (maxFlagLength cl) (joinFlags arg.mFlags)).toList.length := by
      have := padRightTo_ge (maxFlagLength cl) (joinFlags arg.mFlags)
      show maxFlagLength cl - 1 + 0 ≤
        (padRightTo (maxFlagLength cl) (joinFlags arg.mFlags)).length
      omega
    have := wrapLines_dropLast_len (maxFlagLength cl) hm (s0 :: srest)
      (padRightTo (maxFlagLength cl) (joinFlags arg.mFlags)).toList 0 hcollen lc hlc
    rw [← hline]
    exact this

theorem printHelp_layout_witness :
    (2 ≤ maxFlagLength clAlign ∧ maxFlagLength clAlign = 20 ∧
      flagLength ⟨["--abcdef"], some (Dest.dbool 0),
        "first flag with a help text long enough to be wrapped over more than one line by the sixty character soft limit"⟩ = 10 ∧
      flagLength ⟨["--abcdefghijklmnop"], some (Dest.dstr 1), "second flag"⟩ = 20) ∧
    ((printHelp clAlign).head? = some clAlign.mDescription ∧
     printHelp clAlign = clAlign.mDescription ::
       (clAlign.mArguments.map (renderArg (maxFlagLength clAlign))).flatten ∧
     (contPad (maxFlagLength clAlign)).toList =
       List.replicate (maxFlagLength clAlign - 1) ' ' ∧
     ∀ arg ∈ clAlign.mArguments,
       renderArg (maxFlagLength clAlign) arg ≠ [] ∧
       (∃ t, (renderArg (maxFlagLength clAlign) arg).head? =
           some (padRightTo (maxFlagLength clAlign) (joinFlags arg.mFlags) ++ t)) ∧
       (∀ line ∈ (renderArg (maxFlagLength clAlign) arg).tail, ∃ t,
           line = String.mk (List.replicate (maxFlagLength clAlign - 1) ' ') ++ t) ∧
       (∀ line ∈ (renderArg (maxFlagLength clAlign) arg).dropLast,
           60 + (maxFlagLength clAlign - 1) < line.length)) :=
  ⟨⟨by decide, by decide, by decide, by decide⟩, printHelp_layout clAlign (by decide)⟩

theorem unknown_flag_warns_and_continues_witness :
    parseTokens clDemo ["--bogus", "--rate=5"] stZ [] =
      parseTokens clDemo ["--rate=5"] stZ ([] ++ [warnMsg (splitToken "--bogus").1]) ∧
    (parseTokens clDemo ["--bogus", "--rate=5"] stZ []).1 =
      (parseTokens clDemo ["--rate=5"] stZ []).1 ∧
    (parseTokens clDemo ["--bogus", "--rate=5"] stZ []).2.2 =
      (parseTokens clDemo ["--rate=5"] stZ []).2.2 ∧
    ('=' ∉ "--bogus".toList → warnMsg (splitToken "--bogus").1 = warnMsg "--bogus") :=
  unknown_flag_warns_and_continues clDemo "--bogus" ["--rate=5"] stZ [] rfl

end PACApp
